import Mathlib

set_option maxRecDepth 8000

/-! Shallow embedding of the tile acquisition and mosaic-assembly engine of
`apps/pass-image-api/src/tiles.rs`.  Network I/O, the PNG codec and the
Web-Mercator projector are external collaborators: they enter the embedding as
explicit function parameters, so every definition below is a pure function of
the request data plus those collaborator outcomes.  32-bit unsigned arithmetic
is modelled on `Nat` with explicit reductions modulo `2 ^ 32` (Rust
release-mode wrapping semantics); `f32` values are modelled as exact
rationals. -/

/-- Raw encoded image bytes (`bytes::Bytes`). -/
abbrev Bytes := List Nat

/-- A tile index `(x, y, z)`, the `HashMap` key type used in `tiles.rs`. -/
abbrev TIdx := Nat × Nat × Nat

/-- The modulus of 32-bit unsigned arithmetic. -/
def u32Mod : Nat := 4294967296

/-- Wrapping `u32` subtraction (Rust release-mode semantics of `a - b`). -/
def u32sub (a b : Nat) : Nat := (a % u32Mod + u32Mod - b % u32Mod) % u32Mod

/-- Wrapping `u32` multiplication. -/
def u32mul (a b : Nat) : Nat := a * b % u32Mod

/-- Rust `as u32` applied to a (rational-modelled) `f32`: truncation toward
zero, saturating at the ends of the `u32` range.  On nonnegative values
truncation agrees with the floor; negative values saturate to `0`, which is
also where `Int.toNat` sends a negative floor. -/
def u32ofRat (q : ℚ) : Nat := min ⌊q⌋.toNat (u32Mod - 1)

/-- Whether an `Except` value is a success. -/
def exOk {ε α : Type} : Except ε α → Bool
  | .ok _ => true
  | .error _ => false

/-- The `TileSet` enum of `tiles.rs`. -/
inductive TileSet
  | osm
  | swisstopo
deriving DecidableEq

/-- `TileSet::url_pattern` from `tiles.rs`. -/
def TileSet.url_pattern : TileSet → String
  | .osm => "https://tile.openstreetmap.org/{z}/{x}/{y}.png"
  | .swisstopo => "https://wmts.geo.admin.ch/1.0.0/ch.swisstopo.landeskarte-farbe-10/default/current/3857/{z}/{x}/{y}.png"

/-- The `\x7bz\x7d` placeholder replaced in the URL pattern. -/
def zPat : String := "{z}"

/-- The `\x7bx\x7d` placeholder replaced in the URL pattern. -/
def xPat : String := "{x}"

/-- The `\x7by\x7d` placeholder replaced in the URL pattern. -/
def yPat : String := "{y}"

/-- The URL built by `fetch_tile` for a requested tile (zoom, x, y). -/
def tileUrl (t : TileSet) (x y z : Nat) : String :=
  ((t.url_pattern.replace zPat (toString z)).replace xPat (toString x)).replace
    yPat (toString y)

/-- The observable part of an `awc` HTTP response: status code, declared
content type header (absent or non-UTF-8 modelled as `none`), and the outcome
of reading the body. -/
structure HttpResponse where
  status : Nat
  contentType : Option String
  body : Except String Bytes

/-- Outcome of issuing the GET request: transport failure on send, or a
delivered response. -/
inductive NetOutcome
  | sendError (msg : String)
  | response (r : HttpResponse)

/-- The four distinct error constructions of `fetch_tile`, each carrying the
request URL exactly as the `anyhow!` messages in the source do. -/
inductive TileError
  | sendFailed (url msg : String)
  | badStatus (url : String) (code : Nat)
  | badContentType (url ct : String)
  | bodyFailed (url msg : String)
deriving DecidableEq

/-- The URL identified by a `fetch_tile` error. -/
def TileError.url : TileError → String
  | .sendFailed u _ => u
  | .badStatus u _ => u
  | .badContentType u _ => u
  | .bodyFailed u _ => u

/-- Discriminating tag of the error cause: 0 = transport failure on send,
1 = non-success status, 2 = wrong or missing content type, 3 = transport
failure reading the body. -/
def TileError.causeTag : TileError → Nat
  | .sendFailed _ _ => 0
  | .badStatus _ _ => 1
  | .badContentType _ _ => 2
  | .bodyFailed _ _ => 3

/-- The content type string extracted by `fetch_tile`: header value, with a
missing or non-UTF-8 header collapsed to the empty string (`unwrap_or("")`). -/
def headerCT (r : HttpResponse) : String :=
  match r.contentType with
  | some s => s
  | none => ""

/-- `fetch_tile` from `tiles.rs`, as a function of the request data and the
network outcome: build the URL, send, require status exactly 200, require
content type exactly `image/png`, then read the body. -/
def fetch_tile (t : TileSet) (x y z : Nat) (net : NetOutcome) :
    Except TileError Bytes :=
  let url := tileUrl t x y z
  match net with
  | .sendError m => .error (.sendFailed url m)
  | .response r =>
    if r.status ≠ 200 then .error (.badStatus url r.status)
    else if headerCT r ≠ "image/png" then .error (.badContentType url (headerCT r))
    else
      match r.body with
      | .error m => .error (.bodyFailed url m)
      | .ok b => .ok b

/-- Success payload of an `Except`, if any. -/
def okBytes : Except TileError Bytes → Option Bytes
  | .ok b => some b
  | .error _ => none

/-- Tag of a `fetch_tile` result: cause tag of the error, or 4 for success. -/
def resultTag : Except TileError Bytes → Nat
  | .ok _ => 4
  | .error e => e.causeTag

/-- The URL carried by the error of a `fetch_tile` result, if it failed. -/
def errUrlOf : Except TileError Bytes → Option String
  | .ok _ => none
  | .error e => some e.url

/-- Follows the spec's words (§4.2, §7): the cause a single tile fetch is
expected to report, computed from the network outcome alone.  0 = transport
failure on send, 1 = non-success status, 2 = wrong or missing content type,
3 = transport failure reading the body, 4 = success. -/
def fetchCauseSpec (net : NetOutcome) : Nat :=
  match net with
  | .sendError _ => 0
  | .response r =>
    if r.status ≠ 200 then 1
    else if headerCT r ≠ "image/png" then 2
    else
      match r.body with
      | .error _ => 3
      | .ok _ => 4

/-- Follows the spec's words (§4.2): the body bytes a single tile fetch is
expected to return, if any. -/
def netBody (net : NetOutcome) : Option Bytes :=
  match net with
  | .sendError _ => none
  | .response r =>
    if r.status = 200 ∧ headerCT r = "image/png" then
      match r.body with
      | .ok b => some b
      | .error _ => none
    else none

/-- Concrete response for the C3 counterexample: status 200, content type
`image/png`, but the body read fails in transport. -/
def c3Resp : HttpResponse :=
  { status := 200
    contentType := some ("image/png")
    body := Except.error ("connection reset while reading body") }

/-- A fractional tile coordinate (`TileCoordinate` in `coordinates.rs`,
consumed by `tiles.rs`): continuous tile-space position plus zoom.  The `f32`
components are modelled as exact rationals. -/
structure TileCoordinate where
  x : ℚ
  y : ℚ
  z : Nat

/-- The tile indices enumerated by `fetch_tile_box`:
`for x in top_left.x.floor() as u32 ..= bottom_right.x.ceil() as u32`,
inner loop likewise over y, pushing `(x, y, top_left.z)`.  A Rust inclusive
range `a..=b` visits `b + 1 - a` values (none when `b < a`). -/
def tile_coords (tl br : TileCoordinate) : List TIdx :=
  (List.range' ⌊tl.x⌋.toNat (⌈br.x⌉.toNat + 1 - ⌊tl.x⌋.toNat)).flatMap
    (fun xv =>
      (List.range' ⌊tl.y⌋.toNat (⌈br.y⌉.toNat + 1 - ⌊tl.y⌋.toNat)).map
        (fun yv => (xv, yv, tl.z)))

/-- `HashMap::insert` on the association-list model of the tile map: replace
the entry if the key is present, otherwise append it. -/
def mapInsert (m : List (TIdx × Bytes)) (k : TIdx) (b : Bytes) :
    List (TIdx × Bytes) :=
  if m.any (fun e => e.1 == k) then
    m.map (fun e => if e.1 == k then (k, b) else e)
  else m ++ [(k, b)]

/-- The key list of the association-list tile map. -/
def mapKeys (m : List (TIdx × Bytes)) : List TIdx := m.map (fun e => e.1)

/-- The result-scanning loop of `fetch_tile_box`: walk the collected results
in completion order, inserting successes into the map and returning the first
error encountered (discarding the map built so far). -/
def scanResults :
    List (TIdx × Except TileError Bytes) → List (TIdx × Bytes) →
      Except TileError (List (TIdx × Bytes))
  | [], m => .ok m
  | (k, Except.ok b) :: rest, m => scanResults rest (mapInsert m k b)
  | (_, Except.error e) :: _, _ => .error e

/-- The completion order of the `buffer_unordered` stream: an arbitrary
permutation of the dispatched coordinates.  The stream can only ever deliver
each dispatched fetch exactly once, so an `order` argument that is not a
permutation of the dispatched list is normalized to program order. -/
def completionOrder (coords order : List TIdx) : List TIdx :=
  if order.Perm coords then order else coords

/-- `fetch_tile_box` from `tiles.rs`: enumerate every `(x, y, top_left.z)` in
the inclusive tile ranges, dispatch one fetch per coordinate, collect all
results (in the arbitrary completion order `order`), then scan them, keeping
successes in the map and returning the first error encountered.  The per-tile
network interaction is abstracted into `fetcher`, the deterministic outcome of
`fetch_tile` for each index. -/
def fetch_tile_box (fetcher : TIdx → Except TileError Bytes)
    (tl br : TileCoordinate) (order : List TIdx) :
    Except TileError (List (TIdx × Bytes)) :=
  scanResults
    ((completionOrder (tile_coords tl br) order).map (fun c => (c, fetcher c))) []

/-- Bytes of a successful fetch (dummy on failure; only used under success
hypotheses). -/
def getBytes : Except TileError Bytes → Bytes
  | .ok b => b
  | .error _ => []

/-- The first error among the per-tile results, scanned in completion order. -/
def firstFailure (fetcher : TIdx → Except TileError Bytes) :
    List TIdx → Option TileError
  | [] => none
  | c :: rest =>
    match fetcher c with
    | .error e => some e
    | .ok _ => firstFailure fetcher rest

/-- Concrete top-left corner for batch witnesses: (0, 0) at zoom 1. -/
def wTl : TileCoordinate := { x := 0, y := 0, z := 1 }

/-- Concrete bottom-right corner for batch witnesses: (1, 1) at zoom 1. -/
def wBr : TileCoordinate := { x := 1, y := 1, z := 1 }

/-- A fetcher that succeeds with the same bytes on every tile. -/
def wFetchOk : TIdx → Except TileError Bytes := fun _ => Except.ok [7]

/-- A fetcher that fails on tile (0, 0, 1) and succeeds elsewhere. -/
def wFetchFail : TIdx → Except TileError Bytes := fun c =>
  if c = ((0 : Nat), (0 : Nat), (1 : Nat)) then
    Except.error (TileError.badStatus ("someUrl") 404)
  else Except.ok [7]

/-- A decoded raster image (`DynamicImage` converted by `to_rgba8`): its
dimensions and its RGBA pixel values, a pixel packed as one `Nat`. -/
structure Tile where
  width : Nat
  height : Nat
  pix : Nat → Nat → Nat

/-- The pixel grid of the mosaic canvas (an `ImageBuffer`), read as a total
function; `ImageBuffer::new` zero-initializes every pixel. -/
abbrev Canvas := Nat → Nat → Nat

/-- The blank canvas created by `ImageBuffer::new`. -/
def blankCanvas : Canvas := fun _ _ => 0

/-- `GenericImage::copy_from` pixel semantics: replace the rectangle of the
canvas starting at `(xo, yo)` with the tile's pixels. -/
def copyOnto (c : Canvas) (t : Tile) (xo yo : Nat) : Canvas :=
  fun i j =>
    if xo ≤ i ∧ i < xo + t.width ∧ yo ≤ j ∧ j < yo + t.height then
      t.pix (i - xo) (j - yo)
    else c i j

/-- Failure modes of `fetch_image`: a failed batch (propagated with `?`), the
`expect("I can load my tiles")` panic on a tile that does not decode, and the
`copy_from(...).unwrap()` panic when a tile does not fit the canvas. -/
inductive AsmError
  | fetchFailed (e : TileError)
  | loadPanic
  | copyPanic
deriving DecidableEq

/-- Placement offsets of a tile in the mosaic
(`(tile_coord.0 - top_left.x.floor() as u32) * tile_size`, and likewise for
y), in wrapping `u32` arithmetic. -/
def tileOffsets (x0 y0 : Nat) (k : TIdx) : Nat × Nat :=
  (u32mul (u32sub k.1 x0) 256, u32mul (u32sub k.2.1 y0) 256)

/-- The tile-drawing loop of `fetch_image`: for each (tile index, bytes) entry
in iteration order, decode the bytes (panicking if that fails), compute the
placement offset and `copy_from` the tile onto the canvas (panicking if it
does not fit).  `decode` abstracts `image::load_from_memory` plus
`to_rgba8`. -/
def drawTiles (decode : Bytes → Option Tile) (x0 y0 W H : Nat) :
    List (TIdx × Bytes) → Canvas → Except AsmError Canvas
  | [], c => .ok c
  | (k, b) :: rest, c =>
    match decode b with
    | none => .error .loadPanic
    | some t =>
      if (tileOffsets x0 y0 k).1 + t.width ≤ W ∧
          (tileOffsets x0 y0 k).2 + t.height ≤ H then
        drawTiles decode x0 y0 W H rest
          (copyOnto c t (tileOffsets x0 y0 k).1 (tileOffsets x0 y0 k).2)
      else .error .copyPanic

/-- A geographic point (`LatLong` in `coordinates.rs`), `f32` degrees modelled
as rationals.  The core never computes on it: it only passes it to the
projector collaborator. -/
structure LatLong where
  lat : ℚ
  lon : ℚ

/-- The tile-space rectangle (`TileBox` in `coordinates.rs`): a pair of
fractional tile coordinates. -/
structure TileBox where
  top_left : TileCoordinate
  bottom_right : TileCoordinate

/-- Modelled from the spec: `outer_top_left` lives in `coordinates.rs`, which
is outside the embedded core; per §3, the SizedTileRectangle exposes the
derived outer top-left tile index (floor(top-left.x), floor(top-left.y)). -/
def TileBox.outer_top_left (b : TileBox) : Nat × Nat :=
  (⌊b.top_left.x⌋.toNat, ⌊b.top_left.y⌋.toNat)

/-- The `ConstrainedTileBox` consumed by `fetch_image`: the tile rectangle,
the original geographic center, and the requested output pixel size
(width, height). -/
structure ConstrainedTileBox where
  tile_box : TileBox
  center : LatLong
  inner_size_px : Nat × Nat

/-- `HashSet::len` of the values of a list: the number of distinct values. -/
def distinctCount (l : List Nat) : Nat := l.toFinset.card

/-- The dimension clamping performed by the `image` crate's `crop_imm`
(`crop_dimms`): clamp the origin into the image, then clamp the width and
height to what remains.  Returns (x, y, width, height). -/
def crop_dims (iw ih cx cy cw ch : Nat) : Nat × Nat × Nat × Nat :=
  let x := min cx iw
  let y := min cy ih
  (x, y, min cw (iw - x), min ch (ih - y))

/-- The final output raster: the content of the produced PNG.  PNG encoding
followed by decoding is modelled as the identity on the cropped raster (the
`write_to` call is modelled as total, per the spec's "encode failure should
not occur under valid inputs"). -/
structure Artifact where
  width : Nat
  height : Nat
  pix : Nat → Nat → Nat

/-- `fetch_image` from `tiles.rs`, starting after the tile map is available:
count the distinct x and y values among the keys, allocate a canvas of size
(nX*256, nY*256), draw every tile at its offset, project the center into
tile space (`proj` abstracts `lat_long_to_tile_coords`), convert to pixels,
subtract half the requested size in wrapping `u32` arithmetic, and crop. -/
def assemble (decode : Bytes → Option Tile) (proj : LatLong → Nat → ℚ × ℚ)
    (tb : ConstrainedTileBox) (tiles : List (TIdx × Bytes)) :
    Except AsmError Artifact :=
  let nX := distinctCount (tiles.map (fun e => e.1.1))
  let nY := distinctCount (tiles.map (fun e => e.1.2.1))
  let W := u32mul nX 256
  let H := u32mul nY 256
  let x0 := ⌊tb.tile_box.top_left.x⌋.toNat
  let y0 := ⌊tb.tile_box.top_left.y⌋.toNat
  match drawTiles decode x0 y0 W H tiles blankCanvas with
  | .error e => .error e
  | .ok canvas =>
    let cen := proj tb.center tb.tile_box.bottom_right.z
    let cxp := u32ofRat ((cen.1 - ((tb.tile_box.outer_top_left.1 : ℚ))) * 256)
    let cyp := u32ofRat ((cen.2 - ((tb.tile_box.outer_top_left.2 : ℚ))) * 256)
    let offL := u32sub cxp (tb.inner_size_px.1 / 2)
    let offT := u32sub cyp (tb.inner_size_px.2 / 2)
    let d := crop_dims W H offL offT tb.inner_size_px.1 tb.inner_size_px.2
    .ok { width := d.2.2.1
          height := d.2.2.2
          pix := fun i j => canvas (d.1 + i) (d.2.1 + j) }

/-- `fetch_image` from `tiles.rs`: fetch the tile box (propagating its error
with `?`), then assemble, crop and encode. -/
def fetch_image (fetcher : TIdx → Except TileError Bytes)
    (decode : Bytes → Option Tile) (proj : LatLong → Nat → ℚ × ℚ)
    (tb : ConstrainedTileBox) (order : List TIdx) : Except AsmError Artifact :=
  match fetch_tile_box fetcher tb.tile_box.top_left tb.tile_box.bottom_right order with
  | .error e => .error (.fetchFailed e)
  | .ok m => assemble decode proj tb m

/-- `fetch_image_from_point` from `tiles.rs`: compute the bounding box via the
external projector (`bbox` abstracts
`lat_long_and_image_size_to_bounding_box` from `coordinates.rs`) and fetch
the image. -/
def fetch_image_from_point (bbox : LatLong → ℚ → Nat → ConstrainedTileBox)
    (fetcher : TIdx → Except TileError Bytes) (decode : Bytes → Option Tile)
    (proj : LatLong → Nat → ℚ × ℚ) (center : LatLong) (radius_km : ℚ)
    (image_size : Nat) (order : List TIdx) : Except AsmError Artifact :=
  fetch_image fetcher decode proj (bbox center radius_km image_size) order

/-- Modelled from the spec: the guarantee of the external projector
(`lat_long_and_image_size_to_bounding_box` in `coordinates.rs`, outside the
embedded core).  Per §6 the produced rectangle is "large enough, after adding
overscan for cropping, to guarantee at least imagePixels × imagePixels
resolution centered on center": the requested crop box around the projected
center fits inside the rectangle on both axes.  Per §3 the rectangle has
nonnegative coordinates bounded by 2^zoom per axis (here relaxed to 2^20,
ample for every slippy-map zoom in use) with top-left ≤ bottom-right and both
corners at one zoom. -/
def GoodTileBox (proj : LatLong → Nat → ℚ × ℚ) (tb : ConstrainedTileBox) : Prop :=
  0 ≤ tb.tile_box.top_left.x ∧ 0 ≤ tb.tile_box.top_left.y ∧
  tb.tile_box.top_left.x ≤ tb.tile_box.bottom_right.x ∧
  tb.tile_box.top_left.y ≤ tb.tile_box.bottom_right.y ∧
  tb.tile_box.top_left.z = tb.tile_box.bottom_right.z ∧
  tb.tile_box.bottom_right.x ≤ 2 ^ 20 ∧ tb.tile_box.bottom_right.y ≤ 2 ^ 20 ∧
  ((tb.inner_size_px.1 / 2 : Nat) : ℚ) ≤
    ((proj tb.center tb.tile_box.bottom_right.z).1 - tb.tile_box.top_left.x) * 256 ∧
  (proj tb.center tb.tile_box.bottom_right.z).1 * 256 +
      ((tb.inner_size_px.1 - tb.inner_size_px.1 / 2 : Nat) : ℚ) ≤
    tb.tile_box.bottom_right.x * 256 ∧
  ((tb.inner_size_px.2 / 2 : Nat) : ℚ) ≤
    ((proj tb.center tb.tile_box.bottom_right.z).2 - tb.tile_box.top_left.y) * 256 ∧
  (proj tb.center tb.tile_box.bottom_right.z).2 * 256 +
      ((tb.inner_size_px.2 - tb.inner_size_px.2 / 2 : Nat) : ℚ) ≤
    tb.tile_box.bottom_right.y * 256

/-- One iteration of the tile-drawing loop, ignoring the panics: draw the
entry onto the canvas if it decodes. -/
def placeEntry (decode : Bytes → Option Tile) (x0 y0 : Nat)
    (c : Canvas) (e : TIdx × Bytes) : Canvas :=
  match decode e.2 with
  | none => c
  | some t => copyOnto c t (tileOffsets x0 y0 e.1).1 (tileOffsets x0 y0 e.1).2

/-- A decoder that rejects every byte string, for the C6 witness. -/
def wDecodeNone : Bytes → Option Tile := fun _ => none

/-- The dummy projector for witnesses that never reach the projection. -/
def wProj0 : LatLong → Nat → ℚ × ℚ := fun _ _ => (0, 0)

/-- A concrete constrained tile box over the witness rectangle, requesting a
256 x 256 output. -/
def wTb : ConstrainedTileBox :=
  { tile_box := { top_left := wTl, bottom_right := wBr }
    center := { lat := 0, lon := 0 }
    inner_size_px := (256, 256) }

/-- The canvas rectangle covered by a 256x256 tile drawn for key `k`. -/
def inTileRegion (x0 y0 : Nat) (k : TIdx) (i j : Nat) : Prop :=
  (tileOffsets x0 y0 k).1 ≤ i ∧ i < (tileOffsets x0 y0 k).1 + 256 ∧
  (tileOffsets x0 y0 k).2 ≤ j ∧ j < (tileOffsets x0 y0 k).2 + 256

/-- Disjointness of the 256x256 canvas regions of two tile keys. -/
def regDisj (x0 y0 : Nat) (k k' : TIdx) : Prop :=
  ∀ i j : Nat, ¬(inTileRegion x0 y0 k i j ∧ inTileRegion x0 y0 k' i j)

/-- A decoder producing the same 256x256 tile for any bytes, for witnesses. -/
def wTile256 : Tile := { width := 256, height := 256, pix := fun i j => i + j }

/-- Decoder used by the order-independence witness. -/
def wDecode256 : Bytes → Option Tile := fun _ => some wTile256

/-- First iteration order for the C8 witness: two horizontally adjacent
tiles. -/
def w8l1 : List (TIdx × Bytes) :=
  [(((0 : Nat), (0 : Nat), (1 : Nat)), [1]), (((1 : Nat), (0 : Nat), (1 : Nat)), [2])]

/-- Second iteration order for the C8 witness: the same entries, swapped. -/
def w8l2 : List (TIdx × Bytes) :=
  [(((1 : Nat), (0 : Nat), (1 : Nat)), [2]), (((0 : Nat), (0 : Nat), (1 : Nat)), [1])]

/-- Concrete four-tile batch matching `tile_coords wTl wBr`. -/
def w10tiles : List (TIdx × Bytes) :=
  [(((0 : Nat), (0 : Nat), (1 : Nat)), [1]), (((0 : Nat), (1 : Nat), (1 : Nat)), [2]),
    (((1 : Nat), (0 : Nat), (1 : Nat)), [3]), (((1 : Nat), (1 : Nat), (1 : Nat)), [4])]

/-- Concrete constrained tile box for the C1 witness: rectangle (0,0)-(2,2) at
zoom 1 with a requested 256 x 256 output. -/
def c1Tb : ConstrainedTileBox :=
  { tile_box :=
      { top_left := { x := 0, y := 0, z := 1 }
        bottom_right := { x := 2, y := 2, z := 1 } }
    center := { lat := 0, lon := 0 }
    inner_size_px := (256, 256) }

/-- Constant bounding-box projector for the C1 witness. -/
def c1Bbox : LatLong → ℚ → Nat → ConstrainedTileBox := fun _ _ _ => c1Tb

/-- Constant center projection for the C1 witness: tile-space (3/2, 3/2). -/
def c1Proj : LatLong → Nat → ℚ × ℚ := fun _ _ => (3 / 2, 3 / 2)

/-- The geographic center used in the C1 witness. -/
def c1Center : LatLong := { lat := 0, lon := 0 }

/-- The width of an artifact result, if it is a success. -/
def resultWidth : Except AsmError Artifact → Option Nat
  | .ok a => some a.width
  | .error _ => none

/-- Constrained tile box for the C2 failing input: rectangle (0,0)-(1,1) at
zoom 1, requested output 1024 x 1024 — the projected center lies close to the
canvas's left/top edge, so centerPx − requestedSize/2 is negative. -/
def c2Tb : ConstrainedTileBox :=
  { tile_box :=
      { top_left := { x := 0, y := 0, z := 1 }
        bottom_right := { x := 1, y := 1, z := 1 } }
    center := { lat := 0, lon := 0 }
    inner_size_px := (1024, 1024) }

/-- Center projection for the C2 failing input: tile-space (1/10, 1/10),
i.e. center pixel (25, 25) on the assembled canvas. -/
def c2Proj : LatLong → Nat → ℚ × ℚ := fun _ _ => (1 / 10, 1 / 10)

/-- C3: the claim's "if and only if the HTTP status is exactly 200 and the
declared content type is exactly image/png" is refuted by a response with
status 200 and content type `image/png` whose body read fails: `fetch_tile`
fails there as well, so status + content type alone do not suffice for
success. -/
theorem fetch_tile_iff_counterexample :
    c3Resp.status = 200 ∧ headerCT c3Resp = "image/png" ∧
      exOk (fetch_tile TileSet.osm 0 0 0 (NetOutcome.response c3Resp)) = false := by
  refine ⟨rfl, rfl, ?_⟩
  rfl

/-- C3 (amended): `fetch_tile` returns the response body bytes iff the send
succeeds, the status is exactly 200, the declared content type is exactly
`image/png`, and the body read succeeds; otherwise it fails, the four failure
causes (transport failure on send, non-success status, wrong or missing
content type, transport failure reading the body) are distinguishable by the
error constructor, and every error identifies the request URL. -/
theorem fetch_tile_characterization (t : TileSet) (x y z : Nat)
    (net : NetOutcome) :
    okBytes (fetch_tile t x y z net) = netBody net ∧
    resultTag (fetch_tile t x y z net) = fetchCauseSpec net ∧
    errUrlOf (fetch_tile t x y z net) =
      (if fetchCauseSpec net = 4 then none else some (tileUrl t x y z)) := by
  cases net with
  | sendError m =>
    simp [fetch_tile, okBytes, netBody, resultTag, fetchCauseSpec, errUrlOf,
      TileError.causeTag, TileError.url]
  | response r =>
    by_cases hst : r.status = 200
    · by_cases hct : headerCT r = "image/png"
      · cases hb : r.body with
        | error m =>
          simp [fetch_tile, okBytes, netBody, resultTag, fetchCauseSpec,
            errUrlOf, TileError.causeTag, TileError.url, hst, hct, hb]
        | ok b =>
          simp [fetch_tile, okBytes, netBody, resultTag, fetchCauseSpec,
            errUrlOf, TileError.causeTag, TileError.url, hst, hct, hb]
      · simp [fetch_tile, okBytes, netBody, resultTag, fetchCauseSpec,
          errUrlOf, TileError.causeTag, TileError.url, hst, hct]
    · simp [fetch_tile, okBytes, netBody, resultTag, fetchCauseSpec,
        errUrlOf, TileError.causeTag, TileError.url, hst]

theorem completionOrder_perm (coords order : List TIdx) :
    (completionOrder coords order).Perm coords := by
  unfold completionOrder
  split
  · assumption
  · exact List.Perm.refl _

theorem scanResults_spec (fetcher : TIdx → Except TileError Bytes)
    (l : List TIdx) (m0 : List (TIdx × Bytes)) :
    scanResults (l.map (fun c => (c, fetcher c))) m0 =
      match firstFailure fetcher l with
      | some e => Except.error e
      | none =>
        Except.ok (l.foldl (fun m c => mapInsert m c (getBytes (fetcher c))) m0) := by
  induction l generalizing m0 with
  | nil => rfl
  | cons c rest ih =>
    cases hc : fetcher c with
    | ok b =>
      simp only [List.map_cons, scanResults, firstFailure, hc, List.foldl_cons,
        getBytes]
      exact ih (mapInsert m0 c b)
    | error e =>
      simp [scanResults, firstFailure, hc]

theorem mapInsert_of_not_mem (m : List (TIdx × Bytes)) (k : TIdx) (b : Bytes)
    (h : k ∉ mapKeys m) : mapInsert m k b = m ++ [(k, b)] := by
  have : m.any (fun e => e.1 == k) = false := by
    simp only [List.any_eq_false]
    intro e he
    simp only [beq_iff_eq]
    intro hek
    exact h (by simpa [mapKeys, hek] using List.mem_map_of_mem (fun e => e.1) he)
  simp [mapInsert, this]

theorem mapKeys_fold_insert (g : TIdx → Bytes) (l : List TIdx) :
    ∀ m0 : List (TIdx × Bytes), l.Nodup → (∀ c ∈ l, c ∉ mapKeys m0) →
      mapKeys (l.foldl (fun m c => mapInsert m c (g c)) m0) = mapKeys m0 ++ l := by
  induction l with
  | nil => intro m0 _ _; simp
  | cons c rest ih =>
    intro m0 hnd hdisj
    have hc : c ∉ mapKeys m0 := hdisj c (List.mem_cons_self c rest)
    have hins : mapInsert m0 c (g c) = m0 ++ [(c, g c)] :=
      mapInsert_of_not_mem m0 c (g c) hc
    have hkeys : mapKeys (m0 ++ [(c, g c)]) = mapKeys m0 ++ [c] := by
      simp [mapKeys]
    have hdisj' : ∀ d ∈ rest, d ∉ mapKeys (m0 ++ [(c, g c)]) := by
      intro d hd
      rw [hkeys]
      intro hmem
      rcases List.mem_append.mp hmem with h1 | h1
      · exact hdisj d (List.mem_cons_of_mem c hd) h1
      · have : d = c := by simpa using h1
        subst this
        exact (List.nodup_cons.mp hnd).1 hd
    have := ih (m0 ++ [(c, g c)]) (List.nodup_cons.mp hnd).2 hdisj'
    simp only [List.foldl_cons, hins]
    rw [this, hkeys]
    simp

theorem mem_tile_coords (tl br : TileCoordinate) (c : TIdx)
    (hx : ⌊tl.x⌋.toNat ≤ ⌈br.x⌉.toNat) (hy : ⌊tl.y⌋.toNat ≤ ⌈br.y⌉.toNat) :
    c ∈ tile_coords tl br ↔
      ⌊tl.x⌋.toNat ≤ c.1 ∧ c.1 ≤ ⌈br.x⌉.toNat ∧
        ⌊tl.y⌋.toNat ≤ c.2.1 ∧ c.2.1 ≤ ⌈br.y⌉.toNat ∧ c.2.2 = tl.z := by
  obtain ⟨cx, cy, cz⟩ := c
  simp only [tile_coords, List.mem_flatMap, List.mem_map, List.mem_range'_1]
  constructor
  · rintro ⟨xv, ⟨hx1, hx2⟩, yv, ⟨hy1, hy2⟩, heq⟩
    obtain ⟨e1, e2, e3⟩ : xv = cx ∧ yv = cy ∧ tl.z = cz := by
      simpa using heq
    subst e1
    subst e2
    exact ⟨hx1, by omega, hy1, by omega, e3.symm⟩
  · rintro ⟨h1, h2, h3, h4, h5⟩
    exact ⟨cx, ⟨h1, by omega⟩, cy, ⟨h3, by omega⟩, by rw [h5]⟩

theorem tile_coords_nodup (tl br : TileCoordinate) :
    (tile_coords tl br).Nodup := by
  refine List.nodup_flatMap.mpr ⟨?_, ?_⟩
  · intro xv _
    refine (List.nodup_range' _ _).map ?_
    intro a b hab
    simpa using congrArg (fun p : TIdx => p.2.1) hab
  · refine List.Pairwise.imp ?_ (List.nodup_range' _ _)
    intro a b hab
    simp only [Function.onFun, List.disjoint_left, List.mem_map]
    rintro p ⟨ya, _, rfl⟩ ⟨yb, _, hpb⟩
    have hba : b = a := by simpa using congrArg (fun q : TIdx => q.1) hpb
    exact hab hba.symm

theorem tile_coords_ne_nil (tl br : TileCoordinate)
    (hx : ⌊tl.x⌋.toNat ≤ ⌈br.x⌉.toNat) (hy : ⌊tl.y⌋.toNat ≤ ⌈br.y⌉.toNat) :
    tile_coords tl br ≠ [] := by
  intro h
  have : (⌊tl.x⌋.toNat, ⌊tl.y⌋.toNat, tl.z) ∈ tile_coords tl br := by
    rw [mem_tile_coords tl br _ hx hy]
    exact ⟨le_refl _, hx, le_refl _, hy, rfl⟩
  rw [h] at this
  exact List.not_mem_nil _ this

theorem firstFailure_eq_none (fetcher : TIdx → Except TileError Bytes)
    (l : List TIdx) (hok : ∀ c ∈ l, exOk (fetcher c) = true) :
    firstFailure fetcher l = none := by
  induction l with
  | nil => rfl
  | cons c rest ih =>
    have hc := hok c (List.mem_cons_self c rest)
    cases hfc : fetcher c with
    | ok b =>
      simp only [firstFailure, hfc]
      exact ih (fun d hd => hok d (List.mem_cons_of_mem c hd))
    | error e =>
      rw [hfc] at hc
      simp [exOk] at hc

theorem firstFailure_isSome (fetcher : TIdx → Except TileError Bytes)
    (l : List TIdx) (hfail : ∃ c ∈ l, exOk (fetcher c) = false) :
    ∃ e, firstFailure fetcher l = some e := by
  induction l with
  | nil => simp at hfail
  | cons c rest ih =>
    cases hfc : fetcher c with
    | ok b =>
      rcases hfail with ⟨d, hd, hdf⟩
      rcases List.mem_cons.mp hd with rfl | hd'
      · rw [hfc] at hdf
        simp [exOk] at hdf
      · simp only [firstFailure, hfc]
        exact ih ⟨d, hd', hdf⟩
    | error e =>
      exact ⟨e, by simp [firstFailure, hfc]⟩

/-- C4: for a rectangle whose corners share one zoom level (and has
nonnegative tile-space coordinates with top-left ≤ bottom-right), a fully
successful `fetch_tile_box` returns a map with exactly one entry — no
duplicates, at least one tile — per integer pair (column, row) with column in
[floor(top-left.x), ceil(bottom-right.x)] and row in
[floor(top-left.y), ceil(bottom-right.y)] inclusive, every key carrying the
rectangle's zoom. -/
theorem fetch_tile_box_enumeration (fetcher : TIdx → Except TileError Bytes)
    (tl br : TileCoordinate) (order : List TIdx)
    (hx0 : 0 ≤ tl.x) (hy0 : 0 ≤ tl.y)
    (hxle : tl.x ≤ br.x) (hyle : tl.y ≤ br.y) (hz : tl.z = br.z)
    (hok : ∀ c ∈ tile_coords tl br, exOk (fetcher c) = true) :
    ∃ m, fetch_tile_box fetcher tl br order = Except.ok m ∧
      (mapKeys m).Perm (tile_coords tl br) ∧ (mapKeys m).Nodup ∧ m ≠ [] ∧
      (∀ c : TIdx, c ∈ mapKeys m ↔
        (⌊tl.x⌋.toNat ≤ c.1 ∧ c.1 ≤ ⌈br.x⌉.toNat ∧
          ⌊tl.y⌋.toNat ≤ c.2.1 ∧ c.2.1 ≤ ⌈br.y⌉.toNat ∧ c.2.2 = tl.z)) := by
  have hxfc : ⌊tl.x⌋.toNat ≤ ⌈br.x⌉.toNat := by
    have h1 : ⌊tl.x⌋ ≤ ⌈br.x⌉ := le_trans (Int.floor_mono hxle) (Int.floor_le_ceil br.x)
    exact Int.toNat_le_toNat h1
  have hyfc : ⌊tl.y⌋.toNat ≤ ⌈br.y⌉.toNat := by
    have h1 : ⌊tl.y⌋ ≤ ⌈br.y⌉ := le_trans (Int.floor_mono hyle) (Int.floor_le_ceil br.y)
    exact Int.toNat_le_toNat h1
  set l := completionOrder (tile_coords tl br) order with hldef
  have hl : l.Perm (tile_coords tl br) := completionOrder_perm _ _
  have hlnd : l.Nodup := (List.Perm.nodup_iff hl).mpr (tile_coords_nodup tl br)
  have hlok : ∀ c ∈ l, exOk (fetcher c) = true := fun c hc => hok c (hl.mem_iff.mp hc)
  have hff : firstFailure fetcher l = none := firstFailure_eq_none fetcher l hlok
  have hscan := scanResults_spec fetcher l []
  rw [hff] at hscan
  refine ⟨_, hscan, ?_⟩
  have hkeys :
      mapKeys (l.foldl (fun m c => mapInsert m c (getBytes (fetcher c))) []) = l := by
    have := mapKeys_fold_insert (fun c => getBytes (fetcher c)) l [] hlnd
      (fun c _ => by simp [mapKeys])
    simpa [mapKeys] using this
  rw [hkeys]
  refine ⟨hl, hlnd, ?_, ?_⟩
  · intro hnil
    have h1 := congrArg mapKeys hnil
    rw [hkeys] at h1
    have h2 : l = [] := by simpa [mapKeys] using h1
    rw [h2] at hl
    exact tile_coords_ne_nil tl br hxfc hyfc hl.symm.eq_nil
  · intro c
    rw [hl.mem_iff]
    exact mem_tile_coords tl br c hxfc hyfc

/-- C5: if at least one tile fetch in the batch fails, `fetch_tile_box` —
which waits for all dispatched fetches (it collects every result before
scanning) — returns the first-encountered error of the completion order and
never returns a (partial) map; consequently `fetch_image` over that rectangle
never produces an artifact. -/
theorem fetch_tile_box_fail_first_error (fetcher : TIdx → Except TileError Bytes)
    (tl br : TileCoordinate) (order : List TIdx)
    (hfail : ∃ c ∈ tile_coords tl br, exOk (fetcher c) = false) :
    ∃ e, firstFailure fetcher (completionOrder (tile_coords tl br) order) = some e ∧
      fetch_tile_box fetcher tl br order = Except.error e ∧
      (∀ m, fetch_tile_box fetcher tl br order ≠ Except.ok m) ∧
      (∀ (decode : Bytes → Option Tile) (proj : LatLong → Nat → ℚ × ℚ)
        (tb : ConstrainedTileBox), tb.tile_box.top_left = tl →
        tb.tile_box.bottom_right = br →
        ∀ a, fetch_image fetcher decode proj tb order ≠ Except.ok a) := by
  set l := completionOrder (tile_coords tl br) order with hldef
  have hl : l.Perm (tile_coords tl br) := completionOrder_perm _ _
  have hlfail : ∃ c ∈ l, exOk (fetcher c) = false := by
    rcases hfail with ⟨c, hc, hcf⟩
    exact ⟨c, hl.mem_iff.mpr hc, hcf⟩
  rcases firstFailure_isSome fetcher l hlfail with ⟨e, he⟩
  have hscan := scanResults_spec fetcher l []
  rw [he] at hscan
  have hfb : fetch_tile_box fetcher tl br order = Except.error e := hscan
  refine ⟨e, he, hfb, ?_, ?_⟩
  · intro m hm
    rw [hfb] at hm
    exact Except.noConfusion hm
  · intro decode proj tb h1 h2 a ha
    simp only [fetch_image, h1, h2] at ha
    rw [hfb] at ha
    exact Except.noConfusion ha

/-- Witness for C4 at the concrete rectangle (0,0)-(1,1), zoom 1, with all
fetches succeeding. -/
theorem fetch_tile_box_enumeration_witness :
    ∃ m, fetch_tile_box wFetchOk wTl wBr [] = Except.ok m ∧
      (mapKeys m).Perm (tile_coords wTl wBr) ∧ (mapKeys m).Nodup ∧ m ≠ [] ∧
      (∀ c : TIdx, c ∈ mapKeys m ↔
        (⌊wTl.x⌋.toNat ≤ c.1 ∧ c.1 ≤ ⌈wBr.x⌉.toNat ∧
          ⌊wTl.y⌋.toNat ≤ c.2.1 ∧ c.2.1 ≤ ⌈wBr.y⌉.toNat ∧ c.2.2 = wTl.z)) :=
  fetch_tile_box_enumeration wFetchOk wTl wBr [] (by decide) (by decide)
    (by decide) (by decide) rfl (fun c _ => rfl)

/-- Witness for C5 at the same concrete rectangle with the fetch of tile
(0, 0, 1) failing. -/
theorem fetch_tile_box_fail_first_error_witness :
    ∃ e, firstFailure wFetchFail (completionOrder (tile_coords wTl wBr) []) = some e ∧
      fetch_tile_box wFetchFail wTl wBr [] = Except.error e ∧
      (∀ m, fetch_tile_box wFetchFail wTl wBr [] ≠ Except.ok m) ∧
      (∀ (decode : Bytes → Option Tile) (proj : LatLong → Nat → ℚ × ℚ)
        (tb : ConstrainedTileBox), tb.tile_box.top_left = wTl →
        tb.tile_box.bottom_right = wBr →
        ∀ a, fetch_image wFetchFail decode proj tb [] ≠ Except.ok a) :=
  fetch_tile_box_fail_first_error wFetchFail wTl wBr [] (by decide)

theorem u32sub_eq (a b : Nat) (hba : b ≤ a) (ha : a < u32Mod) :
    u32sub a b = a - b := by
  unfold u32sub u32Mod
  unfold u32Mod at ha
  omega

theorem u32mul_eq (a b : Nat) (h : a * b < u32Mod) : u32mul a b = a * b := by
  unfold u32mul u32Mod
  unfold u32Mod at h
  omega

theorem u32ofRat_eq (q : ℚ) (h : q ≤ 2 ^ 28) : u32ofRat q = ⌊q⌋.toNat := by
  unfold u32ofRat
  refine min_eq_left ?_
  have h1 : ⌊q⌋ ≤ (2 : ℤ) ^ 28 := by
    have := Int.floor_mono h
    simpa using this
  have h2 : ⌊q⌋.toNat ≤ 2 ^ 28 := by
    rcases Int.le_total 0 ⌊q⌋ with hpos | hneg
    · omega
    · have : ⌊q⌋.toNat = 0 := Int.toNat_of_nonpos hneg
      omega
  unfold u32Mod
  omega

theorem drawTiles_ok (decode : Bytes → Option Tile) (x0 y0 W H : Nat)
    (l : List (TIdx × Bytes))
    (h : ∀ e ∈ l, ∃ t, decode e.2 = some t ∧
      (tileOffsets x0 y0 e.1).1 + t.width ≤ W ∧
      (tileOffsets x0 y0 e.1).2 + t.height ≤ H) :
    ∀ c, drawTiles decode x0 y0 W H l c =
      Except.ok (l.foldl (placeEntry decode x0 y0) c) := by
  induction l with
  | nil => intro c; rfl
  | cons f rest ih =>
    intro c
    obtain ⟨t, hdec, hbw, hbh⟩ := h f (List.mem_cons_self f rest)
    obtain ⟨k, b⟩ := f
    simp only [drawTiles, hdec, List.foldl_cons]
    rw [if_pos ⟨hbw, hbh⟩]
    have := ih (fun e he => h e (List.mem_cons_of_mem _ he))
    rw [this]
    simp [placeEntry, hdec]

theorem drawTiles_err (decode : Bytes → Option Tile) (x0 y0 W H : Nat)
    (l : List (TIdx × Bytes)) (hfail : ∃ e ∈ l, decode e.2 = none) :
    ∀ c, ∃ err, drawTiles decode x0 y0 W H l c = Except.error err := by
  induction l with
  | nil => simp at hfail
  | cons f rest ih =>
    intro c
    obtain ⟨k, b⟩ := f
    cases hdec : decode b with
    | none => exact ⟨AsmError.loadPanic, by simp [drawTiles, hdec]⟩
    | some t =>
      have hrest : ∃ e ∈ rest, decode e.2 = none := by
        rcases hfail with ⟨e, he, hef⟩
        rcases List.mem_cons.mp he with rfl | he'
        · rw [hef] at hdec
          exact Option.noConfusion hdec
        · exact ⟨e, he', hef⟩
      by_cases hb : (tileOffsets x0 y0 k).1 + t.width ≤ W ∧
          (tileOffsets x0 y0 k).2 + t.height ≤ H
      · obtain ⟨err, herr⟩ := ih hrest
          (copyOnto c t (tileOffsets x0 y0 k).1 (tileOffsets x0 y0 k).2)
        refine ⟨err, ?_⟩
        simp only [drawTiles, hdec]
        rw [if_pos hb]
        exact herr
      · refine ⟨AsmError.copyPanic, ?_⟩
        simp only [drawTiles, hdec]
        rw [if_neg hb]

/-- C6: if any tile's bytes fail to decode, the whole assembly is aborted
(in the source via the `expect("I can load my tiles")` panic, preceded at
worst by a `copy_from` unwrap panic on an earlier tile): `assemble` never
produces an artifact, surfacing an error instead. -/
theorem assemble_decode_failure_aborts (decode : Bytes → Option Tile)
    (proj : LatLong → Nat → ℚ × ℚ) (tb : ConstrainedTileBox)
    (tiles : List (TIdx × Bytes))
    (hfail : ∃ e ∈ tiles, decode e.2 = none) :
    ∃ err, assemble decode proj tb tiles = Except.error err := by
  obtain ⟨err, herr⟩ := drawTiles_err decode
    ⌊tb.tile_box.top_left.x⌋.toNat ⌊tb.tile_box.top_left.y⌋.toNat
    (u32mul (distinctCount (tiles.map (fun e => e.1.1))) 256)
    (u32mul (distinctCount (tiles.map (fun e => e.1.2.1))) 256)
    tiles hfail blankCanvas
  refine ⟨err, ?_⟩
  simp only [assemble]
  rw [herr]

/-- Witness for C6: one tile whose bytes do not decode aborts assembly. -/
theorem assemble_decode_failure_aborts_witness :
    ∃ err, assemble wDecodeNone wProj0 wTb [(((0 : Nat), (0 : Nat), (1 : Nat)), [5])] =
      Except.error err :=
  assemble_decode_failure_aborts wDecodeNone wProj0 wTb _
    ⟨(((0 : Nat), (0 : Nat), (1 : Nat)), [5]), by decide, rfl⟩

theorem regDisj_symm (x0 y0 : Nat) (k k' : TIdx) (h : regDisj x0 y0 k k') :
    regDisj x0 y0 k' k := by
  intro i j hij
  exact h i j ⟨hij.2, hij.1⟩

theorem tileOffsets_eq (x0 y0 : Nat) (k : TIdx)
    (hx : x0 ≤ k.1) (hy : y0 ≤ k.2.1)
    (hxb : k.1 ≤ 2 ^ 20) (hyb : k.2.1 ≤ 2 ^ 20) :
    tileOffsets x0 y0 k = ((k.1 - x0) * 256, (k.2.1 - y0) * 256) := by
  unfold tileOffsets
  rw [u32sub_eq k.1 x0 hx (by unfold u32Mod; omega),
    u32sub_eq k.2.1 y0 hy (by unfold u32Mod; omega),
    u32mul_eq _ 256 (by unfold u32Mod; omega),
    u32mul_eq _ 256 (by unfold u32Mod; omega)]

theorem regDisj_of_ne (x0 y0 : Nat) (k k' : TIdx)
    (hx : x0 ≤ k.1) (hy : y0 ≤ k.2.1) (hx' : x0 ≤ k'.1) (hy' : y0 ≤ k'.2.1)
    (hxb : k.1 ≤ 2 ^ 20) (hyb : k.2.1 ≤ 2 ^ 20)
    (hxb' : k'.1 ≤ 2 ^ 20) (hyb' : k'.2.1 ≤ 2 ^ 20)
    (hne : k.1 ≠ k'.1 ∨ k.2.1 ≠ k'.2.1) :
    regDisj x0 y0 k k' := by
  intro i j hij
  obtain ⟨⟨ha1, ha2, ha3, ha4⟩, hb1, hb2, hb3, hb4⟩ := hij
  rw [tileOffsets_eq x0 y0 k hx hy hxb hyb] at ha1 ha2 ha3 ha4
  rw [tileOffsets_eq x0 y0 k' hx' hy' hxb' hyb'] at hb1 hb2 hb3 hb4
  simp only at ha1 ha2 ha3 ha4 hb1 hb2 hb3 hb4
  rcases hne with hne | hne <;> omega

theorem foldl_place_untouched (decode : Bytes → Option Tile) (x0 y0 : Nat)
    (l : List (TIdx × Bytes)) (i j : Nat)
    (hdec : ∀ e ∈ l, ∀ t, decode e.2 = some t → t.width = 256 ∧ t.height = 256)
    (h : ∀ e ∈ l, ¬inTileRegion x0 y0 e.1 i j) :
    ∀ c, (l.foldl (placeEntry decode x0 y0) c) i j = c i j := by
  induction l with
  | nil => intro c; rfl
  | cons f rest ih =>
    intro c
    simp only [List.foldl_cons]
    rw [ih (fun e he t ht => hdec e (List.mem_cons_of_mem _ he) t ht)
      (fun e he => h e (List.mem_cons_of_mem _ he))]
    cases hdf : decode f.2 with
    | none => simp [placeEntry, hdf]
    | some t =>
      obtain ⟨hw, hh⟩ := hdec f (List.mem_cons_self f rest) t hdf
      simp only [placeEntry, hdf, copyOnto]
      rw [if_neg]
      intro hcond
      refine h f (List.mem_cons_self f rest) ?_
      rw [hw] at hcond
      rw [hh] at hcond
      exact hcond

theorem foldl_place_at (decode : Bytes → Option Tile) (x0 y0 : Nat)
    (l : List (TIdx × Bytes)) (e : TIdx × Bytes) (t : Tile)
    (he : e ∈ l)
    (hdec : ∀ f ∈ l, ∀ t', decode f.2 = some t' → t'.width = 256 ∧ t'.height = 256)
    (hdisj : l.Pairwise (fun f g => regDisj x0 y0 f.1 g.1))
    (ht : decode e.2 = some t) (i j : Nat) (hi : i < 256) (hj : j < 256) :
    ∀ c, (l.foldl (placeEntry decode x0 y0) c)
        ((tileOffsets x0 y0 e.1).1 + i) ((tileOffsets x0 y0 e.1).2 + j) =
      t.pix i j := by
  induction l with
  | nil => exact absurd he (List.not_mem_nil e)
  | cons f rest ih =>
    intro c
    simp only [List.foldl_cons]
    rcases List.mem_cons.mp he with rfl | he'
    · have hreg : inTileRegion x0 y0 e.1
          ((tileOffsets x0 y0 e.1).1 + i) ((tileOffsets x0 y0 e.1).2 + j) := by
        exact ⟨Nat.le_add_right _ _, by omega, Nat.le_add_right _ _, by omega⟩
      have hrest : ∀ g ∈ rest, ¬inTileRegion x0 y0 g.1
          ((tileOffsets x0 y0 e.1).1 + i) ((tileOffsets x0 y0 e.1).2 + j) := by
        intro g hg hgreg
        exact (List.pairwise_cons.mp hdisj).1 g hg _ _ ⟨hreg, hgreg⟩
      rw [foldl_place_untouched decode x0 y0 rest _ _
        (fun g hg t' ht' => hdec g (List.mem_cons_of_mem _ hg) t' ht') hrest]
      obtain ⟨hw, hh⟩ := hdec e (List.mem_cons_self e rest) t ht
      simp only [placeEntry, ht, copyOnto]
      rw [if_pos]
      · rw [Nat.add_sub_cancel_left, Nat.add_sub_cancel_left]
      · rw [hw, hh]
        exact ⟨Nat.le_add_right _ _, by omega, Nat.le_add_right _ _, by omega⟩
    · exact ih he' (fun g hg t' ht' => hdec g (List.mem_cons_of_mem _ hg) t' ht')
        (List.pairwise_cons.mp hdisj).2 _

theorem placeEntry_comm (decode : Bytes → Option Tile) (x0 y0 : Nat)
    (c : Canvas) (e f : TIdx × Bytes)
    (hde : ∀ t, decode e.2 = some t → t.width = 256 ∧ t.height = 256)
    (hdf : ∀ t, decode f.2 = some t → t.width = 256 ∧ t.height = 256)
    (hdisj : regDisj x0 y0 e.1 f.1) :
    placeEntry decode x0 y0 (placeEntry decode x0 y0 c e) f =
      placeEntry decode x0 y0 (placeEntry decode x0 y0 c f) e := by
  cases hdece : decode e.2 with
  | none => simp [placeEntry, hdece]
  | some t =>
    cases hdecf : decode f.2 with
    | none => simp [placeEntry, hdece, hdecf]
    | some t' =>
      obtain ⟨hew, heh⟩ := hde t hdece
      obtain ⟨hfw, hfh⟩ := hdf t' hdecf
      funext i j
      simp only [placeEntry, hdece, hdecf, copyOnto]
      by_cases hA : (tileOffsets x0 y0 e.1).1 ≤ i ∧ i < (tileOffsets x0 y0 e.1).1 + t.width ∧
          (tileOffsets x0 y0 e.1).2 ≤ j ∧ j < (tileOffsets x0 y0 e.1).2 + t.height
      · have hnB : ¬((tileOffsets x0 y0 f.1).1 ≤ i ∧
            i < (tileOffsets x0 y0 f.1).1 + t'.width ∧
            (tileOffsets x0 y0 f.1).2 ≤ j ∧
            j < (tileOffsets x0 y0 f.1).2 + t'.height) := by
          intro hB
          refine hdisj i j ⟨?_, ?_⟩
          · rw [hew, heh] at hA
            exact hA
          · rw [hfw, hfh] at hB
            exact hB
        rw [if_neg hnB, if_pos hA, if_pos hA]
      · by_cases hB : (tileOffsets x0 y0 f.1).1 ≤ i ∧
            i < (tileOffsets x0 y0 f.1).1 + t'.width ∧
            (tileOffsets x0 y0 f.1).2 ≤ j ∧ j < (tileOffsets x0 y0 f.1).2 + t'.height
        · rw [if_pos hB, if_neg hA, if_pos hB]
        · rw [if_neg hB, if_neg hA, if_neg hA, if_neg hB]

theorem foldl_place_perm (decode : Bytes → Option Tile) (x0 y0 : Nat)
    {l₁ l₂ : List (TIdx × Bytes)} (hp : l₁.Perm l₂) :
    (∀ e ∈ l₁, ∀ t, decode e.2 = some t → t.width = 256 ∧ t.height = 256) →
      l₁.Pairwise (fun f g => regDisj x0 y0 f.1 g.1) →
      ∀ c, l₁.foldl (placeEntry decode x0 y0) c =
        l₂.foldl (placeEntry decode x0 y0) c := by
  induction hp with
  | nil => intro _ _ c; rfl
  | cons x p ih =>
    intro hdec hdisj c
    simp only [List.foldl_cons]
    exact ih (fun e he t ht => hdec e (List.mem_cons_of_mem _ he) t ht)
      (List.pairwise_cons.mp hdisj).2 _
  | swap x y l =>
    intro hdec hdisj c
    simp only [List.foldl_cons]
    have hyx : regDisj x0 y0 y.1 x.1 :=
      (List.pairwise_cons.mp hdisj).1 x (List.mem_cons_self x l)
    rw [placeEntry_comm decode x0 y0 c y x
      (hdec y (List.mem_cons_self y (x :: l)))
      (hdec x (List.mem_cons_of_mem _ (List.mem_cons_self x l))) hyx]
  | trans p₁ p₂ ih₁ ih₂ =>
    intro hdec hdisj c
    rw [ih₁ hdec hdisj c]
    refine ih₂ (fun e he t ht => hdec e (p₁.mem_iff.mpr he) t ht) ?_ c
    exact (p₁.pairwise_iff (fun hsym => regDisj_symm x0 y0 _ _ hsym)).mp hdisj

/-- C8: the mosaic composition is order-independent.  For two iteration
orders of the same batch contents (any two permutations of the entry list,
covering both `buffer_unordered` completion order and `HashMap` iteration
order), with each tile decoding to a 256x256 raster, distinct tiles occupying
disjoint canvas regions, and every tile fitting the canvas, `drawTiles`
produces the identical assembled canvas before cropping. -/
theorem drawTiles_order_independent (decode : Bytes → Option Tile)
    (x0 y0 W H : Nat) (l₁ l₂ : List (TIdx × Bytes))
    (hperm : l₁.Perm l₂)
    (hdec : ∀ e ∈ l₁, ∃ t, decode e.2 = some t ∧ t.width = 256 ∧ t.height = 256)
    (hbounds : ∀ e ∈ l₁, (tileOffsets x0 y0 e.1).1 + 256 ≤ W ∧
      (tileOffsets x0 y0 e.1).2 + 256 ≤ H)
    (hdisj : l₁.Pairwise (fun f g => regDisj x0 y0 f.1 g.1)) :
    drawTiles decode x0 y0 W H l₁ blankCanvas =
      drawTiles decode x0 y0 W H l₂ blankCanvas := by
  have hdims : ∀ e ∈ l₁, ∀ t, decode e.2 = some t →
      t.width = 256 ∧ t.height = 256 := by
    intro e he t ht
    obtain ⟨t', ht', hw, hh⟩ := hdec e he
    rw [ht] at ht'
    injection ht' with h
    subst h
    exact ⟨hw, hh⟩
  have hgood₁ : ∀ e ∈ l₁, ∃ t, decode e.2 = some t ∧
      (tileOffsets x0 y0 e.1).1 + t.width ≤ W ∧
      (tileOffsets x0 y0 e.1).2 + t.height ≤ H := by
    intro e he
    obtain ⟨t, ht, hw, hh⟩ := hdec e he
    obtain ⟨hbw, hbh⟩ := hbounds e he
    exact ⟨t, ht, by rw [hw]; exact hbw, by rw [hh]; exact hbh⟩
  have hgood₂ : ∀ e ∈ l₂, ∃ t, decode e.2 = some t ∧
      (tileOffsets x0 y0 e.1).1 + t.width ≤ W ∧
      (tileOffsets x0 y0 e.1).2 + t.height ≤ H :=
    fun e he => hgood₁ e (hperm.mem_iff.mpr he)
  rw [drawTiles_ok decode x0 y0 W H l₁ hgood₁ blankCanvas,
    drawTiles_ok decode x0 y0 W H l₂ hgood₂ blankCanvas]
  exact congrArg Except.ok (foldl_place_perm decode x0 y0 hperm hdims hdisj blankCanvas)

/-- Witness for C8 at a concrete two-tile batch in two delivery orders. -/
theorem drawTiles_order_independent_witness :
    drawTiles wDecode256 0 0 512 256 w8l1 blankCanvas =
      drawTiles wDecode256 0 0 512 256 w8l2 blankCanvas :=
  drawTiles_order_independent wDecode256 0 0 512 256 w8l1 w8l2
    (by decide)
    (fun e _ => ⟨wTile256, rfl, rfl, rfl⟩)
    (by decide)
    (by
      refine List.Pairwise.cons ?_ (List.pairwise_singleton _ _)
      intro g hg
      have hgeq : g = (((1 : Nat), (0 : Nat), (1 : Nat)), ([2] : Bytes)) := by
        simpa [w8l1] using hg
      subst hgeq
      exact regDisj_of_ne 0 0 ((0 : Nat), (0 : Nat), (1 : Nat))
        ((1 : Nat), (0 : Nat), (1 : Nat)) (by decide) (by decide) (by decide)
        (by decide) (by decide) (by decide) (by decide) (by decide)
        (Or.inl (by decide)))

theorem batch_shape (tl br : TileCoordinate) (tiles : List (TIdx × Bytes))
    (hx0 : 0 ≤ tl.x) (hy0 : 0 ≤ tl.y) (hxle : tl.x ≤ br.x) (hyle : tl.y ≤ br.y)
    (hbx : br.x ≤ 2 ^ 20) (hby : br.y ≤ 2 ^ 20)
    (hkeys : (tiles.map (fun e => e.1)).Perm (tile_coords tl br)) :
    (∀ e ∈ tiles, ⌊tl.x⌋.toNat ≤ e.1.1 ∧ e.1.1 ≤ ⌈br.x⌉.toNat ∧
        ⌊tl.y⌋.toNat ≤ e.1.2.1 ∧ e.1.2.1 ≤ ⌈br.y⌉.toNat ∧ e.1.2.2 = tl.z) ∧
    distinctCount (tiles.map (fun e => e.1.1)) =
      ⌈br.x⌉.toNat + 1 - ⌊tl.x⌋.toNat ∧
    distinctCount (tiles.map (fun e => e.1.2.1)) =
      ⌈br.y⌉.toNat + 1 - ⌊tl.y⌋.toNat ∧
    ⌈br.x⌉.toNat ≤ 2 ^ 20 ∧ ⌈br.y⌉.toNat ≤ 2 ^ 20 ∧
    tiles.Pairwise (fun f g => regDisj ⌊tl.x⌋.toNat ⌊tl.y⌋.toNat f.1 g.1) := by
  have hxfc : ⌊tl.x⌋.toNat ≤ ⌈br.x⌉.toNat :=
    Int.toNat_le_toNat (le_trans (Int.floor_mono hxle) (Int.floor_le_ceil br.x))
  have hyfc : ⌊tl.y⌋.toNat ≤ ⌈br.y⌉.toNat :=
    Int.toNat_le_toNat (le_trans (Int.floor_mono hyle) (Int.floor_le_ceil br.y))
  have hx1b : ⌈br.x⌉.toNat ≤ 2 ^ 20 := by
    refine Int.toNat_le.mpr (Int.ceil_le.mpr ?_)
    push_cast
    exact hbx
  have hy1b : ⌈br.y⌉.toNat ≤ 2 ^ 20 := by
    refine Int.toNat_le.mpr (Int.ceil_le.mpr ?_)
    push_cast
    exact hby
  have hmem : ∀ e ∈ tiles, ⌊tl.x⌋.toNat ≤ e.1.1 ∧ e.1.1 ≤ ⌈br.x⌉.toNat ∧
      ⌊tl.y⌋.toNat ≤ e.1.2.1 ∧ e.1.2.1 ≤ ⌈br.y⌉.toNat ∧ e.1.2.2 = tl.z := by
    intro e he
    have h1 : e.1 ∈ tile_coords tl br :=
      hkeys.mem_iff.mp (List.mem_map_of_mem (fun e => e.1) he)
    exact (mem_tile_coords tl br e.1 hxfc hyfc).mp h1
  refine ⟨hmem, ?_, ?_, hx1b, hy1b, ?_⟩
  · have hpx : (tiles.map (fun e => e.1.1)).Perm
        ((tile_coords tl br).map (fun k : TIdx => k.1)) := by
      have h1 : tiles.map (fun e => e.1.1) =
          (tiles.map (fun e => e.1)).map (fun k : TIdx => k.1) := by
        simp [List.map_map, Function.comp]
      rw [h1]
      exact hkeys.map _
    have hfin : (tiles.map (fun e => e.1.1)).toFinset =
        (List.range' ⌊tl.x⌋.toNat (⌈br.x⌉.toNat + 1 - ⌊tl.x⌋.toNat)).toFinset := by
      ext a
      simp only [List.mem_toFinset, hpx.mem_iff, List.mem_map, List.mem_range'_1]
      constructor
      · rintro ⟨k, hk, rfl⟩
        obtain ⟨h1, h2, _, _, _⟩ := (mem_tile_coords tl br k hxfc hyfc).mp hk
        exact ⟨h1, by omega⟩
      · rintro ⟨h1, h2⟩
        refine ⟨(a, ⌊tl.y⌋.toNat, tl.z), ?_, rfl⟩
        rw [mem_tile_coords tl br _ hxfc hyfc]
        exact ⟨h1, by omega, le_refl _, hyfc, rfl⟩
    unfold distinctCount
    rw [hfin, List.toFinset_card_of_nodup (List.nodup_range' _ _),
      List.length_range']
  · have hpy : (tiles.map (fun e => e.1.2.1)).Perm
        ((tile_coords tl br).map (fun k : TIdx => k.2.1)) := by
      have h1 : tiles.map (fun e => e.1.2.1) =
          (tiles.map (fun e => e.1)).map (fun k : TIdx => k.2.1) := by
        simp [List.map_map, Function.comp]
      rw [h1]
      exact hkeys.map _
    have hfin : (tiles.map (fun e => e.1.2.1)).toFinset =
        (List.range' ⌊tl.y⌋.toNat (⌈br.y⌉.toNat + 1 - ⌊tl.y⌋.toNat)).toFinset := by
      ext a
      simp only [List.mem_toFinset, hpy.mem_iff, List.mem_map, List.mem_range'_1]
      constructor
      · rintro ⟨k, hk, rfl⟩
        obtain ⟨_, _, h3, h4, _⟩ := (mem_tile_coords tl br k hxfc hyfc).mp hk
        exact ⟨h3, by omega⟩
      · rintro ⟨h1, h2⟩
        refine ⟨(⌊tl.x⌋.toNat, a, tl.z), ?_, rfl⟩
        rw [mem_tile_coords tl br _ hxfc hyfc]
        exact ⟨le_refl _, hxfc, (show ⌊tl.y⌋.toNat ≤ a from h1),
          (show a ≤ ⌈br.y⌉.toNat by omega), rfl⟩
    unfold distinctCount
    rw [hfin, List.toFinset_card_of_nodup (List.nodup_range' _ _),
      List.length_range']
  · have hnd : (tiles.map (fun e => e.1)).Nodup :=
      hkeys.nodup_iff.mpr (tile_coords_nodup tl br)
    have hpw : tiles.Pairwise (fun f g : TIdx × Bytes => f.1 ≠ g.1) :=
      List.pairwise_map.mp hnd
    refine hpw.imp_of_mem ?_
    intro f g hf hg hne
    obtain ⟨hf1, hf2, hf3, hf4, hf5⟩ := hmem f hf
    obtain ⟨hg1, hg2, hg3, hg4, hg5⟩ := hmem g hg
    refine regDisj_of_ne _ _ _ _ hf1 hf3 hg1 hg3 (le_trans hf2 hx1b)
      (le_trans hf4 hy1b) (le_trans hg2 hx1b) (le_trans hg4 hy1b) ?_
    by_contra hcon
    push_neg at hcon
    refine hne ?_
    have h2 : f.1.2 = g.1.2 := by
      rw [Prod.ext_iff]
      exact ⟨hcon.2, hf5.trans hg5.symm⟩
    rw [Prod.ext_iff]
    exact ⟨hcon.1, h2⟩

/-- C10: for a successful batch of `fetch_tile_box` shape (keys a permutation
of the enumerated inclusive grid starting at the floors of the top-left
corner), every tile's placement offset plus 256 stays within the canvas
dimension derived from the distinct key counts, on both axes, so every
`copy_from` is in bounds and its `unwrap` cannot panic: the draw loop
completes with a canvas. -/
theorem fetch_tile_box_batch_copy_in_bounds (decode : Bytes → Option Tile)
    (tl br : TileCoordinate) (tiles : List (TIdx × Bytes)) (x0 y0 nX nY : Nat)
    (hx0 : 0 ≤ tl.x) (hy0 : 0 ≤ tl.y) (hxle : tl.x ≤ br.x) (hyle : tl.y ≤ br.y)
    (hbx : br.x ≤ 2 ^ 20) (hby : br.y ≤ 2 ^ 20)
    (hkeys : (tiles.map (fun e => e.1)).Perm (tile_coords tl br))
    (hx0e : x0 = ⌊tl.x⌋.toNat) (hy0e : y0 = ⌊tl.y⌋.toNat)
    (hnXe : nX = distinctCount (tiles.map (fun e => e.1.1)))
    (hnYe : nY = distinctCount (tiles.map (fun e => e.1.2.1)))
    (hdec : ∀ e ∈ tiles, ∃ t, decode e.2 = some t ∧
      t.width = 256 ∧ t.height = 256) :
    (∀ e ∈ tiles, (tileOffsets x0 y0 e.1).1 + 256 ≤ u32mul nX 256 ∧
      (tileOffsets x0 y0 e.1).2 + 256 ≤ u32mul nY 256) ∧
    ∃ canvas, drawTiles decode x0 y0 (u32mul nX 256) (u32mul nY 256)
      tiles blankCanvas = Except.ok canvas := by
  subst hx0e
  subst hy0e
  subst hnXe
  subst hnYe
  obtain ⟨hmem, hnx, hny, hx1b, hy1b, hdisj⟩ :=
    batch_shape tl br tiles hx0 hy0 hxle hyle hbx hby hkeys
  have hWeq : u32mul (distinctCount (tiles.map (fun e => e.1.1))) 256 =
      (⌈br.x⌉.toNat + 1 - ⌊tl.x⌋.toNat) * 256 := by
    rw [hnx]
    refine u32mul_eq _ _ ?_
    unfold u32Mod
    omega
  have hHeq : u32mul (distinctCount (tiles.map (fun e => e.1.2.1))) 256 =
      (⌈br.y⌉.toNat + 1 - ⌊tl.y⌋.toNat) * 256 := by
    rw [hny]
    refine u32mul_eq _ _ ?_
    unfold u32Mod
    omega
  have hbounds : ∀ e ∈ tiles,
      (tileOffsets ⌊tl.x⌋.toNat ⌊tl.y⌋.toNat e.1).1 + 256 ≤
        u32mul (distinctCount (tiles.map (fun e => e.1.1))) 256 ∧
      (tileOffsets ⌊tl.x⌋.toNat ⌊tl.y⌋.toNat e.1).2 + 256 ≤
        u32mul (distinctCount (tiles.map (fun e => e.1.2.1))) 256 := by
    intro e he
    obtain ⟨h1, h2, h3, h4, _⟩ := hmem e he
    rw [tileOffsets_eq _ _ _ h1 h3 (le_trans h2 hx1b) (le_trans h4 hy1b),
      hWeq, hHeq]
    dsimp only
    constructor
    · omega
    · omega
  refine ⟨hbounds, ?_⟩
  have hgood : ∀ e ∈ tiles, ∃ t, decode e.2 = some t ∧
      (tileOffsets ⌊tl.x⌋.toNat ⌊tl.y⌋.toNat e.1).1 + t.width ≤
        u32mul (distinctCount (tiles.map (fun e => e.1.1))) 256 ∧
      (tileOffsets ⌊tl.x⌋.toNat ⌊tl.y⌋.toNat e.1).2 + t.height ≤
        u32mul (distinctCount (tiles.map (fun e => e.1.2.1))) 256 := by
    intro e he
    obtain ⟨t, ht, hw, hh⟩ := hdec e he
    obtain ⟨hbw, hbh⟩ := hbounds e he
    refine ⟨t, ht, ?_, ?_⟩
    · rw [hw]
      exact hbw
    · rw [hh]
      exact hbh
  exact ⟨_, drawTiles_ok decode _ _ _ _ tiles hgood blankCanvas⟩

/-- Witness for C10 at the concrete four-tile batch over (0,0)-(1,1), zoom 1. -/
theorem fetch_tile_box_batch_copy_in_bounds_witness :
    (∀ e ∈ w10tiles, (tileOffsets 0 0 e.1).1 + 256 ≤ u32mul 2 256 ∧
      (tileOffsets 0 0 e.1).2 + 256 ≤ u32mul 2 256) ∧
    ∃ canvas, drawTiles wDecode256 0 0 (u32mul 2 256) (u32mul 2 256)
      w10tiles blankCanvas = Except.ok canvas :=
  fetch_tile_box_batch_copy_in_bounds wDecode256 wTl wBr w10tiles 0 0 2 2
    (by decide) (by decide) (by decide) (by decide) (by decide) (by decide)
    (by decide) (by decide) (by decide) (by decide) (by decide)
    (fun e _ => ⟨wTile256, rfl, rfl, rfl⟩)

theorem dims_unique (decode : Bytes → Option Tile) (b : Bytes)
    (h : ∃ t, decode b = some t ∧ t.width = 256 ∧ t.height = 256) :
    ∀ t, decode b = some t → t.width = 256 ∧ t.height = 256 := by
  intro t ht
  obtain ⟨t', ht', hw, hh⟩ := h
  rw [ht] at ht'
  injection ht' with heq
  subst heq
  exact ⟨hw, hh⟩

/-- C7: for a batch of `fetch_tile_box` shape whose tiles decode to 256x256
rasters, the assembled canvas has width nX*256 and height nY*256 where nX and
nY are the distinct column and row counts actually present in the batch
(equal to the enumerated spans), and each tile's pixels land at offset
((column - floor(top_left.x)) * 256, (row - floor(top_left.y)) * 256). -/
theorem assemble_mosaic_geometry (decode : Bytes → Option Tile)
    (tl br : TileCoordinate) (tiles : List (TIdx × Bytes)) (x0 y0 nX nY : Nat)
    (hx0 : 0 ≤ tl.x) (hy0 : 0 ≤ tl.y) (hxle : tl.x ≤ br.x) (hyle : tl.y ≤ br.y)
    (hbx : br.x ≤ 2 ^ 20) (hby : br.y ≤ 2 ^ 20)
    (hkeys : (tiles.map (fun e => e.1)).Perm (tile_coords tl br))
    (hx0e : x0 = ⌊tl.x⌋.toNat) (hy0e : y0 = ⌊tl.y⌋.toNat)
    (hnXe : nX = distinctCount (tiles.map (fun e => e.1.1)))
    (hnYe : nY = distinctCount (tiles.map (fun e => e.1.2.1)))
    (hdec : ∀ e ∈ tiles, ∃ t, decode e.2 = some t ∧
      t.width = 256 ∧ t.height = 256) :
    nX = ⌈br.x⌉.toNat + 1 - ⌊tl.x⌋.toNat ∧
    nY = ⌈br.y⌉.toNat + 1 - ⌊tl.y⌋.toNat ∧
    u32mul nX 256 = nX * 256 ∧ u32mul nY 256 = nY * 256 ∧
    ∃ canvas, drawTiles decode x0 y0 (u32mul nX 256) (u32mul nY 256)
        tiles blankCanvas = Except.ok canvas ∧
      ∀ e ∈ tiles, ∀ t, decode e.2 = some t → ∀ i j : Nat, i < 256 → j < 256 →
        canvas ((e.1.1 - x0) * 256 + i) ((e.1.2.1 - y0) * 256 + j) =
          t.pix i j := by
  subst hx0e
  subst hy0e
  subst hnXe
  subst hnYe
  obtain ⟨hmem, hnx, hny, hx1b, hy1b, hdisj⟩ :=
    batch_shape tl br tiles hx0 hy0 hxle hyle hbx hby hkeys
  have hWcol : u32mul (distinctCount (tiles.map (fun e => e.1.1))) 256 =
      distinctCount (tiles.map (fun e => e.1.1)) * 256 := by
    refine u32mul_eq _ _ ?_
    rw [hnx]
    unfold u32Mod
    omega
  have hHcol : u32mul (distinctCount (tiles.map (fun e => e.1.2.1))) 256 =
      distinctCount (tiles.map (fun e => e.1.2.1)) * 256 := by
    refine u32mul_eq _ _ ?_
    rw [hny]
    unfold u32Mod
    omega
  refine ⟨hnx, hny, hWcol, hHcol, ?_⟩
  have hgood : ∀ e ∈ tiles, ∃ t, decode e.2 = some t ∧
      (tileOffsets ⌊tl.x⌋.toNat ⌊tl.y⌋.toNat e.1).1 + t.width ≤
        u32mul (distinctCount (tiles.map (fun e => e.1.1))) 256 ∧
      (tileOffsets ⌊tl.x⌋.toNat ⌊tl.y⌋.toNat e.1).2 + t.height ≤
        u32mul (distinctCount (tiles.map (fun e => e.1.2.1))) 256 := by
    intro e he
    obtain ⟨h1, h2, h3, h4, _⟩ := hmem e he
    obtain ⟨t, ht, hw, hh⟩ := hdec e he
    refine ⟨t, ht, ?_, ?_⟩
    · rw [hw, hWcol,
        tileOffsets_eq _ _ _ h1 h3 (le_trans h2 hx1b) (le_trans h4 hy1b), hnx]
      dsimp only
      omega
    · rw [hh, hHcol,
        tileOffsets_eq _ _ _ h1 h3 (le_trans h2 hx1b) (le_trans h4 hy1b), hny]
      dsimp only
      omega
  refine ⟨_, drawTiles_ok decode _ _ _ _ tiles hgood blankCanvas, ?_⟩
  intro e he t ht i j hi hj
  have hdims : ∀ f ∈ tiles, ∀ t', decode f.2 = some t' →
      t'.width = 256 ∧ t'.height = 256 :=
    fun f hf => dims_unique decode f.2 (hdec f hf)
  have hplace := foldl_place_at decode ⌊tl.x⌋.toNat ⌊tl.y⌋.toNat tiles e t he
    hdims hdisj ht i j hi hj blankCanvas
  obtain ⟨h1, h2, h3, h4, _⟩ := hmem e he
  rw [tileOffsets_eq _ _ _ h1 h3 (le_trans h2 hx1b) (le_trans h4 hy1b)] at hplace
  exact hplace

/-- Witness for C7 at the concrete four-tile batch over (0,0)-(1,1), zoom 1. -/
theorem assemble_mosaic_geometry_witness :
    (2 : Nat) = ⌈wBr.x⌉.toNat + 1 - ⌊wTl.x⌋.toNat ∧
    (2 : Nat) = ⌈wBr.y⌉.toNat + 1 - ⌊wTl.y⌋.toNat ∧
    u32mul 2 256 = 2 * 256 ∧ u32mul 2 256 = 2 * 256 ∧
    ∃ canvas, drawTiles wDecode256 0 0 (u32mul 2 256) (u32mul 2 256)
        w10tiles blankCanvas = Except.ok canvas ∧
      ∀ e ∈ w10tiles, ∀ t, wDecode256 e.2 = some t →
        ∀ i j : Nat, i < 256 → j < 256 →
          canvas ((e.1.1 - 0) * 256 + i) ((e.1.2.1 - 0) * 256 + j) =
            t.pix i j :=
  assemble_mosaic_geometry wDecode256 wTl wBr w10tiles 0 0 2 2
    (by decide) (by decide) (by decide) (by decide) (by decide) (by decide)
    (by decide) (by decide) (by decide) (by decide) (by decide)
    (fun e _ => ⟨wTile256, rfl, rfl, rfl⟩)

theorem crop_axis_fit (tlq brq cq : ℚ) (s nx : Nat)
    (h0 : 0 ≤ tlq) (hle : tlq ≤ brq) (hbr : brq ≤ 2 ^ 20)
    (hnx : nx = ⌈brq⌉.toNat + 1 - ⌊tlq⌋.toNat)
    (hlow : ((s / 2 : Nat) : ℚ) ≤ (cq - tlq) * 256)
    (hhigh : cq * 256 + ((s - s / 2 : Nat) : ℚ) ≤ brq * 256) :
    u32sub (u32ofRat ((cq - (⌊tlq⌋.toNat : ℚ)) * 256)) (s / 2) =
      u32ofRat ((cq - (⌊tlq⌋.toNat : ℚ)) * 256) - s / 2 ∧
    s / 2 ≤ u32ofRat ((cq - (⌊tlq⌋.toNat : ℚ)) * 256) ∧
    u32ofRat ((cq - (⌊tlq⌋.toNat : ℚ)) * 256) - s / 2 + s ≤ nx * 256 ∧
    u32mul nx 256 = nx * 256 := by
  have hq256 : (0 : ℚ) ≤ 256 := by norm_num
  have hfl0 : (0 : ℤ) ≤ ⌊tlq⌋ := Int.floor_nonneg.mpr h0
  have hx0q : ((⌊tlq⌋.toNat : ℚ)) ≤ tlq := by
    have h1 : ((⌊tlq⌋.toNat : ℚ)) = ((⌊tlq⌋ : ℤ) : ℚ) := by
      exact_mod_cast congrArg (fun n : ℤ => (n : ℚ)) (Int.toNat_of_nonneg hfl0)
    rw [h1]
    exact Int.floor_le tlq
  have hx0nn : (0 : ℚ) ≤ ((⌊tlq⌋.toNat : ℚ)) := by positivity
  have hbr0 : (0 : ℚ) ≤ brq := le_trans h0 hle
  have hcl0 : (0 : ℤ) ≤ ⌈brq⌉ := Int.ceil_nonneg hbr0
  have hx1q : brq ≤ ((⌈brq⌉.toNat : ℚ)) := by
    have h1 : ((⌈brq⌉.toNat : ℚ)) = ((⌈brq⌉ : ℤ) : ℚ) := by
      exact_mod_cast congrArg (fun n : ℤ => (n : ℚ)) (Int.toNat_of_nonneg hcl0)
    rw [h1]
    exact Int.le_ceil brq
  have hx1b : ⌈brq⌉.toNat ≤ 2 ^ 20 := by
    refine Int.toNat_le.mpr (Int.ceil_le.mpr ?_)
    push_cast
    exact hbr
  have hxx : ⌊tlq⌋.toNat ≤ ⌈brq⌉.toNat :=
    Int.toNat_le_toNat (le_trans (Int.floor_mono hle) (Int.floor_le_ceil brq))
  have hsrnn : (0 : ℚ) ≤ ((s - s / 2 : Nat) : ℚ) := by positivity
  set q : ℚ := (cq - (⌊tlq⌋.toNat : ℚ)) * 256 with hqdef
  have hqexp : q = cq * 256 - ((⌊tlq⌋.toNat : ℚ)) * 256 := by
    rw [hqdef]
    ring
  have hqlow : ((s / 2 : Nat) : ℚ) ≤ q := by
    have h1 : (cq - tlq) * 256 ≤ (cq - (⌊tlq⌋.toNat : ℚ)) * 256 :=
      mul_le_mul_of_nonneg_right (by linarith) hq256
    rw [hqdef]
    linarith
  have hbr28 : brq * 256 ≤ 2 ^ 28 := by
    have h1 : brq * 256 ≤ (2 ^ 20 : ℚ) * 256 :=
      mul_le_mul_of_nonneg_right hbr hq256
    have h2 : ((2 : ℚ) ^ 20) * 256 = 2 ^ 28 := by norm_num
    linarith
  have hqle : q ≤ 2 ^ 28 := by
    rw [hqexp]
    have h1 : ((⌊tlq⌋.toNat : ℚ)) * 256 ≥ 0 := by positivity
    linarith
  have hcol := u32ofRat_eq q hqle
  have hfloor_ge : ((s / 2 : Nat) : ℤ) ≤ ⌊q⌋ := by
    refine Int.le_floor.mpr ?_
    exact_mod_cast hqlow
  have hfloor_nn : (0 : ℤ) ≤ ⌊q⌋ := le_trans (by positivity) hfloor_ge
  have hcxp_ge : s / 2 ≤ ⌊q⌋.toNat := by omega
  have hcxpq : ((⌊q⌋.toNat : ℚ)) ≤ q := by
    have h1 : ((⌊q⌋.toNat : ℚ)) = ((⌊q⌋ : ℤ) : ℚ) := by
      exact_mod_cast congrArg (fun n : ℤ => (n : ℚ)) (Int.toNat_of_nonneg hfloor_nn)
    rw [h1]
    exact Int.floor_le q
  have hfloor_small : ⌊q⌋ ≤ ((268435456 : Nat) : ℤ) := by
    have h1 := Int.floor_mono hqle
    rw [show ((2 : ℚ) ^ 28) = ((268435456 : Nat) : ℚ) by norm_num] at h1
    rw [Int.floor_natCast] at h1
    exact h1
  have hcxp_small : ⌊q⌋.toNat ≤ 268435456 := by omega
  have hcxp_lt : ⌊q⌋.toNat < u32Mod := by
    unfold u32Mod
    omega
  have h3 : ((nx : ℚ)) = ((⌈brq⌉.toNat : ℚ)) + 1 - ((⌊tlq⌋.toNat : ℚ)) := by
    rw [hnx]
    have hle' : ⌊tlq⌋.toNat ≤ ⌈brq⌉.toNat + 1 := by omega
    push_cast [hle']
    ring
  have hupq : ((⌊q⌋.toNat : ℚ)) + ((s - s / 2 : Nat) : ℚ) ≤ ((nx : ℚ)) * 256 := by
    have h1 : q + ((s - s / 2 : Nat) : ℚ) ≤
        (brq - ((⌊tlq⌋.toNat : ℚ))) * 256 := by
      have hexp2 : (brq - ((⌊tlq⌋.toNat : ℚ))) * 256 =
          brq * 256 - ((⌊tlq⌋.toNat : ℚ)) * 256 := by ring
      rw [hexp2, hqexp]
      linarith
    have h2 : (brq - ((⌊tlq⌋.toNat : ℚ))) * 256 ≤
        (((⌈brq⌉.toNat : ℚ)) + 1 - ((⌊tlq⌋.toNat : ℚ))) * 256 :=
      mul_le_mul_of_nonneg_right (by linarith) hq256
    rw [h3]
    linarith
  have hup : ⌊q⌋.toNat + (s - s / 2) ≤ nx * 256 := by
    have h1 : ((⌊q⌋.toNat + (s - s / 2) : Nat) : ℚ) ≤ ((nx * 256 : Nat) : ℚ) := by
      push_cast
      push_cast at hupq
      linarith
    exact_mod_cast h1
  refine ⟨?_, ?_, ?_, ?_⟩
  · rw [hcol]
    exact u32sub_eq _ _ hcxp_ge hcxp_lt
  · rw [hcol]
    exact hcxp_ge
  · rw [hcol]
    omega
  · refine u32mul_eq _ _ ?_
    unfold u32Mod
    omega

theorem fetch_tile_box_ok_of_all_ok (fetcher : TIdx → Except TileError Bytes)
    (tl br : TileCoordinate) (order : List TIdx)
    (hok : ∀ c ∈ tile_coords tl br, exOk (fetcher c) = true) :
    ∃ m, fetch_tile_box fetcher tl br order = Except.ok m ∧
      mapKeys m = completionOrder (tile_coords tl br) order := by
  set l := completionOrder (tile_coords tl br) order with hldef
  have hl : l.Perm (tile_coords tl br) := completionOrder_perm _ _
  have hlnd : l.Nodup := hl.nodup_iff.mpr (tile_coords_nodup tl br)
  have hlok : ∀ c ∈ l, exOk (fetcher c) = true :=
    fun c hc => hok c (hl.mem_iff.mp hc)
  have hff := firstFailure_eq_none fetcher l hlok
  have hscan := scanResults_spec fetcher l []
  rw [hff] at hscan
  refine ⟨_, hscan, ?_⟩
  have h1 := mapKeys_fold_insert (fun c => getBytes (fetcher c)) l [] hlnd
    (fun c _ => by simp [mapKeys])
  simpa [mapKeys] using h1

set_option maxHeartbeats 1600000 in
/-- C1: under the spec-modelled projector guarantee (`GoodTileBox`), with
every tile fetch succeeding and every fetched byte string decoding to a
256x256 raster, `fetch_image_from_point` returns an artifact (a PNG whose
decode is modelled as the cropped raster itself) whose pixel dimensions equal
exactly the requested output size `inner_size_px`. -/
theorem fetch_image_from_point_exact_size
    (bbox : LatLong → ℚ → Nat → ConstrainedTileBox)
    (fetcher : TIdx → Except TileError Bytes) (decode : Bytes → Option Tile)
    (proj : LatLong → Nat → ℚ × ℚ) (center : LatLong) (radius_km : ℚ)
    (image_size : Nat) (order : List TIdx)
    (hgood : GoodTileBox proj (bbox center radius_km image_size))
    (hok : ∀ c ∈ tile_coords (bbox center radius_km image_size).tile_box.top_left
        (bbox center radius_km image_size).tile_box.bottom_right,
      exOk (fetcher c) = true)
    (hdec : ∀ b : Bytes, ∃ t, decode b = some t ∧
      t.width = 256 ∧ t.height = 256) :
    ∃ a, fetch_image_from_point bbox fetcher decode proj center radius_km
        image_size order = Except.ok a ∧
      a.width = (bbox center radius_km image_size).inner_size_px.1 ∧
      a.height = (bbox center radius_km image_size).inner_size_px.2 := by
  set tb := bbox center radius_km image_size with htbdef
  obtain ⟨hg1, hg2, hg3, hg4, hg5, hg6, hg7, hg8, hg9, hg10, hg11⟩ := hgood
  obtain ⟨m, hm, hkeys⟩ := fetch_tile_box_ok_of_all_ok fetcher
    tb.tile_box.top_left tb.tile_box.bottom_right order hok
  have hkp : (m.map (fun e => e.1)).Perm
      (tile_coords tb.tile_box.top_left tb.tile_box.bottom_right) := by
    have h1 : m.map (fun e => e.1) = mapKeys m := rfl
    rw [h1, hkeys]
    exact completionOrder_perm _ _
  obtain ⟨hmem, hnx, hny, hx1b, hy1b, hdisj⟩ :=
    batch_shape _ _ m hg1 hg2 hg3 hg4 hg6 hg7 hkp
  set nX := distinctCount (m.map (fun e => e.1.1)) with hnXdef
  set nY := distinctCount (m.map (fun e => e.1.2.1)) with hnYdef
  have hax := crop_axis_fit tb.tile_box.top_left.x tb.tile_box.bottom_right.x
    (proj tb.center tb.tile_box.bottom_right.z).1 tb.inner_size_px.1
    nX hg1 hg3 hg6 hnx hg8 hg9
  have hay := crop_axis_fit tb.tile_box.top_left.y tb.tile_box.bottom_right.y
    (proj tb.center tb.tile_box.bottom_right.z).2 tb.inner_size_px.2
    nY hg2 hg4 hg7 hny hg10 hg11
  obtain ⟨haxsub, haxge, haxle, haxmul⟩ := hax
  obtain ⟨haysub, hayge, hayle, haymul⟩ := hay
  have hgoodm : ∀ e ∈ m, ∃ t, decode e.2 = some t ∧
      (tileOffsets ⌊tb.tile_box.top_left.x⌋.toNat
        ⌊tb.tile_box.top_left.y⌋.toNat e.1).1 + t.width ≤ u32mul nX 256 ∧
      (tileOffsets ⌊tb.tile_box.top_left.x⌋.toNat
        ⌊tb.tile_box.top_left.y⌋.toNat e.1).2 + t.height ≤ u32mul nY 256 := by
    intro e he
    obtain ⟨h1, h2, h3, h4, _⟩ := hmem e he
    obtain ⟨t, ht, hw, hh⟩ := hdec e.2
    refine ⟨t, ht, ?_, ?_⟩
    · rw [hw, haxmul,
        tileOffsets_eq _ _ _ h1 h3 (le_trans h2 hx1b) (le_trans h4 hy1b), hnx]
      dsimp only
      omega
    · rw [hh, haymul,
        tileOffsets_eq _ _ _ h1 h3 (le_trans h2 hx1b) (le_trans h4 hy1b), hny]
      dsimp only
      omega
  have hdraw := drawTiles_ok decode ⌊tb.tile_box.top_left.x⌋.toNat
    ⌊tb.tile_box.top_left.y⌋.toNat (u32mul nX 256) (u32mul nY 256)
    m hgoodm blankCanvas
  simp only [fetch_image_from_point, fetch_image]
  rw [hm]
  simp only [assemble, TileBox.outer_top_left]
  rw [← hnXdef, ← hnYdef, hdraw]
  refine ⟨_, rfl, ?_, ?_⟩
  · rw [← htbdef]
    simp only [crop_dims]
    rw [haxsub, haxmul]
    omega
  · rw [← htbdef]
    simp only [crop_dims]
    rw [haysub, haymul]
    omega

/-- Witness for C1 at the concrete request: 9 tiles all fetch and decode, and
the artifact is exactly 256 x 256. -/
theorem fetch_image_from_point_exact_size_witness :
    ∃ a, fetch_image_from_point c1Bbox wFetchOk wDecode256 c1Proj
        c1Center 1 256 [] = Except.ok a ∧
      a.width = (c1Bbox c1Center 1 256).inner_size_px.1 ∧
      a.height = (c1Bbox c1Center 1 256).inner_size_px.2 :=
  fetch_image_from_point_exact_size c1Bbox wFetchOk wDecode256 c1Proj
    c1Center 1 256 []
    (by unfold GoodTileBox c1Bbox c1Tb c1Proj; norm_num)
    (fun c _ => rfl)
    (fun b => ⟨wTile256, rfl, rfl, rfl⟩)

/-- C2 (demonstration of the code bug at a concrete failing input): the
projected center pixel is (25, 25) but half the requested width is 512, so
`center_x_px - inner_size_px/2` wraps around in `u32` arithmetic to
4294966809 instead of being treated as a boundary violation; the crop then
silently clamps and `assemble` returns Ok with a degraded 0-width artifact —
there is no GeometryError anywhere in the pipeline (the model's error type,
faithful to the source, has only fetch and panic cases). -/
theorem crop_underflow_no_geometry_error :
    u32sub 25 512 = 4294966809 ∧
    c2Tb.inner_size_px.1 = 1024 ∧
    resultWidth (assemble wDecode256 c2Proj c2Tb w10tiles) = some 0 := by
  refine ⟨by decide, rfl, ?_⟩
  have hgood : ∀ e ∈ w10tiles, ∃ t, wDecode256 e.2 = some t ∧
      (tileOffsets 0 0 e.1).1 + t.width ≤ 512 ∧
      (tileOffsets 0 0 e.1).2 + t.height ≤ 512 := by
    intro e he
    refine ⟨wTile256, rfl, ?_, ?_⟩ <;> fin_cases he <;> decide
  have hdraw := drawTiles_ok wDecode256 0 0 512 512 w10tiles hgood blankCanvas
  have hx0eq : ⌊c2Tb.tile_box.top_left.x⌋.toNat = 0 := rfl
  have hy0eq : ⌊c2Tb.tile_box.top_left.y⌋.toNat = 0 := rfl
  have hW : u32mul (distinctCount (w10tiles.map (fun e => e.1.1))) 256 = 512 := by
    decide
  have hH : u32mul (distinctCount (w10tiles.map (fun e => e.1.2.1))) 256 = 512 := by
    decide
  simp only [assemble, TileBox.outer_top_left]
  rw [hx0eq, hy0eq, hW, hH, hdraw]
  have hq1 : ((c2Proj c2Tb.center c2Tb.tile_box.bottom_right.z).1 -
      (((0 : Nat) : ℚ))) * 256 = 128 / 5 := by
    norm_num [c2Proj]
  have hq2 : ((c2Proj c2Tb.center c2Tb.tile_box.bottom_right.z).2 -
      (((0 : Nat) : ℚ))) * 256 = 128 / 5 := by
    norm_num [c2Proj]
  rw [hq1, hq2]
  have hofr : u32ofRat (128 / 5) = 25 := by
    unfold u32ofRat u32Mod
    norm_num
    decide
  rw [hofr]
  decide
